import Mathlib

/-!
Verification of the `mem` library (data-size parsing, formatting and
saturating integer arithmetic).

The development shallowly embeds the Go sources:

* namespace `Mem` embeds the bit-denominated revision: the unit constants
  and `Size`/`Bandwidth` arithmetic (`size.go`, `bandwidth.go`), the shared
  saturating primitives `abs`, `truncate`, `round`, `lessThanHalf`
  (`math.go`), and the parser/formatter (`format.go`).
* namespace `MemBytes` embeds the byte-denominated revision's
  `BitSize.Bytes` (`bitsize.go`) and `Size.Bits` (`size.go`).

Machine integers: Go's `int64`/`uint64` values are embedded as `ℤ`/`ℕ`.
Every operation that can overflow in Go is wrapped explicitly with
`Mem.wrap64` (two's-complement wrap-around) or `% 2^64`; operations that
provably cannot overflow are written plainly.  Go's truncating `/` and `%`
on signed integers are `Int.tdiv` and `Int.tmod`.  Go strings are embedded
as `List Char`.

Floating point: `format.go` routes fractional digits through `float64`
(`strconv.AppendFloat`, and `uint64(float64(r)/float64(l)*float64(unit))`
in the parser).  These are embedded by an exact model of IEEE-754 binary64
arithmetic on non-negative values: a float is a dyadic rational
`sig * 2 ^ exp` with `sig = 0` or `2^52 ≤ sig < 2^53`, and every operation
rounds its exact rational result to nearest, ties to even
(`Mem.roundRatPos`).  `strconv.AppendFloat(_, x, 'f', -1, 64)` (shortest
round-tripping decimal) is modelled by searching for the smallest number of
fractional digits whose nearest decimal converts back to exactly `x`.
-/

namespace Mem

/-! ### Unit constants (`size.go`, bit-denominated revision)

`Bit Size = 1`, `Byte = 8 * Bit`, decimal and binary prefixes. -/

def Bit : ℤ := 1

def KBit : ℤ := 1000 * Bit

def MBit : ℤ := 1000 * KBit

def GBit : ℤ := 1000 * MBit

def TBit : ℤ := 1000 * GBit

def Byte : ℤ := 8 * Bit

def KB : ℤ := 1000 * Byte

def MB : ℤ := 1000 * KB

def GB : ℤ := 1000 * MB

def TB : ℤ := 1000 * GB

def PB : ℤ := 1000 * TB

def KiB : ℤ := 1024 * Byte

def MiB : ℤ := 1024 * KiB

def GiB : ℤ := 1024 * MiB

def TiB : ℤ := 1024 * GiB

def PiB : ℤ := 1024 * TiB

/-- `MaxSize Size = 1<<63 - 1`, the largest representable size. -/
def MaxSize : ℤ := 2 ^ 63 - 1

/-- `minSize Size = -1 << 63`, the (unexported) smallest `int64` value. -/
def minSize : ℤ := -(2 ^ 63)

/-! ### Two's-complement embedding helpers -/

/-- The unsigned 64-bit reinterpretation of an `int64` value
(`uint64(x)` in Go): for `z ∈ [-2^63, 2^63)` this is the value of the
64 bits of `z` read as an unsigned integer. -/
def toUns (z : ℤ) : ℤ := z % 2 ^ 64

/-- Two's-complement wrap-around of an integer into `[-2^63, 2^63)`:
the result of an `int64` operation whose exact value is `z`. -/
def wrap64 (z : ℤ) : ℤ := (z + 2 ^ 63) % 2 ^ 64 - 2 ^ 63

/-- `int64(m)` for an unsigned 64-bit `m` (reinterpretation of the bits). -/
def uToInt64 (m : ℕ) : ℤ := wrap64 (m : ℤ)

/-! ### Saturating integer primitives (`math.go`) -/

/-- `func lessThanHalf(x, y int64) bool { return uint64(x)+uint64(x) < uint64(y) }` -/
def lessThanHalf (x y : ℤ) : Bool := (toUns x + toUns x) % 2 ^ 64 < toUns y

/-- `func abs(v int64) int64`: absolute value; `math.MinInt64` maps to
`math.MaxInt64`. -/
def abs (v : ℤ) : ℤ :=
  if 0 ≤ v then v
  else if v = minSize then MaxSize
  else -v

/-- `func truncate(v, m int64) int64`: `v` unchanged when `m <= 0`,
otherwise `v - v%m` (Go's truncating remainder). -/
def truncate (v m : ℤ) : ℤ :=
  if m ≤ 0 then v
  else v - Int.tmod v m

/-- `func round(v, m int64) int64` from `math.go`, embedded literally,
including the `lessThanHalf(v, m)` test of the negative branch and the
two's-complement wrap-around of the overflow candidates `v - m + r` and
`v + m - r`. -/
def round (v m : ℤ) : ℤ :=
  if m ≤ 0 then v
  else
    let r := Int.tmod v m
    if v < 0 then
      let r1 := -r
      if lessThanHalf v m then wrap64 (v + r1)
      else
        let v1 := wrap64 (v - m + r1)
        if v1 < v then v1 else minSize
    else
      if lessThanHalf r m then wrap64 (v - r)
      else
        let v1 := wrap64 (v + m - r)
        if v1 > v then v1 else MaxSize

/-! ### Exact model of the IEEE-754 binary64 values used by `format.go`

Only non-negative values are needed: the parser divides and multiplies
non-negative integers converted to `float64`, and the formatter first
normalises the remainder `r` to be non-negative. -/

/-- A non-negative binary64 value `sig * 2 ^ exp`; canonically `sig = 0`
(the value zero) or `2^52 ≤ sig < 2^53`. -/
structure F64 where
  sig : ℕ
  exp : ℤ

/-- The float64 zero. -/
def F64.zero : F64 := ⟨0, 0⟩

/-- Number of binary digits of `n`, with structural fuel. -/
def natBitsAux : ℕ → ℕ → ℕ
  | 0, _ => 0
  | f + 1, n => if n = 0 then 0 else natBitsAux f (n / 2) + 1

/-- Number of binary digits of `n` (`0` for `n = 0`). -/
def natBits (n : ℕ) : ℕ := natBitsAux 4096 n

/-- Does `num / den < 2 ^ t` hold (for positive `num`, `den` and `t : ℤ`)? -/
def ratLtPow (num den : ℕ) (t : ℤ) : Bool :=
  if 0 ≤ t then num < den * 2 ^ t.toNat
  else num * 2 ^ (-t).toNat < den

/-- Round the positive rational `num / den` to the nearest binary64 value
(ties to even): returns `⟨sig, exp⟩` with `2^52 ≤ sig < 2^53` such that
`sig * 2 ^ exp` is the rounded value.  (Exponent overflow towards
infinities/subnormals is not modelled; all values reached by `format.go`
are well inside the normal range.) -/
def roundRatPos (num den : ℕ) : F64 :=
  let k := natBits num
  let j := natBits den
  -- choose exp e with 2^52 ≤ num/den/2^e < 2^53
  let e0 : ℤ := (k : ℤ) - (j : ℤ) - 53
  let e : ℤ := if ratLtPow num den (e0 + 53) then e0 else e0 + 1
  -- integer quotient and remainder of num / (den * 2^e)
  let qr : ℕ × ℕ × ℕ :=
    if 0 ≤ e then
      let d := den * 2 ^ e.toNat
      (num / d, num % d, d)
    else
      let n2 := num * 2 ^ (-e).toNat
      (n2 / den, n2 % den, den)
  let q := qr.1
  let rem := qr.2.1
  let d := qr.2.2
  -- round to nearest, ties to even
  let q2 : ℕ :=
    if d < 2 * rem then q + 1
    else if 2 * rem = d then (if q % 2 = 1 then q + 1 else q)
    else q
  if q2 = 2 ^ 53 then ⟨2 ^ 52, e + 1⟩ else ⟨q2, e⟩

/-- `float64(n)` for an unsigned integer `n` (round to nearest). -/
def f64ofNat (n : ℕ) : F64 := if n = 0 then F64.zero else roundRatPos n 1

/-- Binary64 division `a / b` of non-negative values (round to nearest).
Division by zero yields an infinity in Go; the claims never inspect a
value produced through it, and the model returns zero there. -/
def f64div (a b : F64) : F64 :=
  if a.sig = 0 ∨ b.sig = 0 then F64.zero
  else
    let f := roundRatPos a.sig b.sig
    ⟨f.sig, f.exp + a.exp - b.exp⟩

/-- Binary64 multiplication `a * b` of non-negative values. -/
def f64mul (a b : F64) : F64 :=
  if a.sig = 0 ∨ b.sig = 0 then F64.zero
  else
    let f := roundRatPos (a.sig * b.sig) 1
    ⟨f.sig, f.exp + a.exp + b.exp⟩

/-- `uint64(x)` for a non-negative binary64 `x`: truncation towards zero.
Go leaves the out-of-range conversion implementation-specific; the model
returns `2^63` (the amd64 behaviour); no claim depends on it. -/
def f64toUint64 (x : F64) : ℕ :=
  if x.sig = 0 then 0
  else if 0 ≤ x.exp then
    let v := x.sig * 2 ^ x.exp.toNat
    if v < 2 ^ 64 then v else 2 ^ 63
  else x.sig / 2 ^ (-x.exp).toNat

/-- The binary64 value of the decimal fraction `n / 10 ^ p`. -/
def f64ofDec (n p : ℕ) : F64 :=
  if n = 0 then F64.zero else roundRatPos n (10 ^ p)

/-- Equality test of two (canonical) model floats. -/
def f64beq (a b : F64) : Bool := a.sig == b.sig && a.exp == b.exp

/-! ### Decimal digit strings (`strconv.AppendInt` / `strconv.AppendFloat`) -/

/-- Is `c` an ASCII decimal digit?  (`c >= '0' && c <= '9'`) -/
def digit? (c : Char) : Bool := '0' ≤ c && c ≤ '9'

/-- Numeric value of a digit character (`c - '0'`). -/
def digitVal (c : Char) : ℕ := c.toNat - 48

/-- The digit character for `d < 10`. -/
def digitChar (d : ℕ) : Char :=
  match d with
  | 0 => '0' | 1 => '1' | 2 => '2' | 3 => '3' | 4 => '4'
  | 5 => '5' | 6 => '6' | 7 => '7' | 8 => '8' | _ => '9'

/-- Decimal digits of `n`, most significant first, with structural fuel. -/
def natToStrAux : ℕ → ℕ → List Char
  | 0, _ => []
  | f + 1, n =>
    if n < 10 then [digitChar n]
    else natToStrAux f (n / 10) ++ [digitChar (n % 10)]

/-- Decimal representation of a natural number. -/
def natToStr (n : ℕ) : List Char := natToStrAux 256 n

/-- `strconv.AppendInt(_, z, 10)`: decimal representation of an integer. -/
def intToStr (z : ℤ) : List Char :=
  if z < 0 then '-' :: natToStr z.natAbs else natToStr z.natAbs

/-- `n` rendered as exactly `p` digits, left-padded with zeros. -/
def padDec (n p : ℕ) : List Char :=
  let ds := natToStr n
  List.replicate (p - ds.length) '0' ++ ds

/-- Fixed-point decimal string with `p` fractional digits for the integer
`n` scaled by `10 ^ p` (the shape `%.pf` produces). -/
def decString (n p : ℕ) : List Char :=
  if p = 0 then natToStr n
  else natToStr (n / 10 ^ p) ++ '.' :: padDec (n % 10 ^ p) p

/-- `x * 10 ^ p` rounded to the nearest integer, ties to even: the digit
count a correctly-rounded fixed conversion of the binary64 `x` uses. -/
def decRound (x : F64) (p : ℕ) : ℕ :=
  if x.sig = 0 then 0
  else if 0 ≤ x.exp then x.sig * 2 ^ x.exp.toNat * 10 ^ p
  else
    let num := x.sig * 10 ^ p
    let den := 2 ^ (-x.exp).toNat
    let q := num / den
    let rem := num % den
    if den < 2 * rem then q + 1
    else if 2 * rem = den then (if q % 2 = 1 then q + 1 else q)
    else q

/-- Shortest-round-trip search for `strconv.AppendFloat(_, x, 'f', -1, 64)`:
try `p = 1, 2, ...` fractional digits; emit the first correctly-rounded
`p`-digit decimal that converts back to exactly `x`. -/
def shortestAux : ℕ → ℕ → F64 → List Char
  | 0, p, x => decString (decRound x p) p
  | f + 1, p, x =>
    let n := decRound x p
    if f64beq (f64ofDec n p) x then decString n p
    else shortestAux f (p + 1) x

/-- `strconv.AppendFloat(_, x, 'f', -1, 64)` for a positive `x < 1`:
shortest decimal that parses back to `x`. -/
def shortestF (x : F64) : List Char := shortestAux 60 1 x

/-- `strconv.AppendFloat(_, x, 'f', prec, 64)`: negative precision means
shortest round-trip, otherwise exactly `prec` fractional digits. -/
def appendFloat (x : F64) (prec : ℤ) : List Char :=
  if prec < 0 then shortestF x
  else decString (decRound x prec.toNat) prec.toNat

/-! ### The unit table (`func parseUnit`, `format.go`)

The Go function switches on the first character and then matches the whole
remaining string exactly against the listed spellings; this is an exact
lookup in a closed table. -/

/-- The closed unit-suffix table of `parseUnit` (spelling, scale). -/
def unitTable : List (List Char × ℤ) :=
  [ (['b'], Byte), (['B'], Byte),
    (['b', 'i', 't'], Bit), (['B', 'i', 't'], Bit),
    (['k', 'b'], KB), (['K', 'B'], KB),
    (['k', 'i', 'b'], KiB), (['K', 'i', 'B'], KiB),
    (['k', 'b', 'i', 't'], KBit), (['K', 'b', 'i', 't'], KBit),
    (['m', 'b'], MB), (['M', 'B'], MB),
    (['m', 'i', 'b'], MiB), (['M', 'i', 'B'], MiB),
    (['m', 'b', 'i', 't'], MBit), (['M', 'b', 'i', 't'], MBit),
    (['g', 'b'], GB), (['G', 'B'], GB),
    (['g', 'i', 'b'], GiB), (['G', 'i', 'B'], GiB),
    (['g', 'b', 'i', 't'], GBit), (['G', 'b', 'i', 't'], GBit),
    (['t', 'b'], TB), (['T', 'B'], TB),
    (['t', 'i', 'b'], TiB), (['T', 'i', 'B'], TiB),
    (['t', 'b', 'i', 't'], TBit), (['T', 'b', 'i', 't'], TBit),
    (['p', 'b'], PB), (['P', 'B'], PB),
    (['p', 'i', 'b'], PiB), (['P', 'i', 'B'], PiB) ]

/-- `func parseUnit(s string) (Size, bool)`: exact match against the
closed table (`none` models `ok == false`). -/
def parseUnit (cs : List Char) : Option ℤ :=
  Option.map Prod.snd (unitTable.find? (fun e => e.1 = cs))

/-! ### `func ParseSize(s string) (Size, error)` (`format.go`)

The embedding returns the Go pair `(Size, error)` as `ℤ × Bool`, the
Boolean being `true` on success (`err == nil`); every error return in the
source is literally `return 0, errors.New(...)`. -/

/-- `R := uint64(float64(r) / float64(l) * float64(unit))`. -/
def fracPart (r l unit : ℕ) : ℕ :=
  f64toUint64 (f64mul (f64div (f64ofNat r) (f64ofNat l)) (f64ofNat unit))

/-- The optional leading sign (`if c := s[0]; c == '+' || c == '-' {...}`):
the `neg` flag and the remainder of the string. -/
def stripSign : List Char → Bool × List Char
  | [] => (false, [])
  | c :: rest =>
    if c = '+' ∨ c = '-' then (decide (c = '-'), rest) else (false, c :: rest)

/-- The character loop of `ParseSize`.  State: remaining characters, the
sign, the `dot` flag, the `uint64` accumulators `m`, `r`, `l`, and whether
we are still at index `i == 0`.  Falling off the end of the string is a
parse error. -/
def parseLoop : List Char → Bool → Bool → ℕ → ℕ → ℕ → Bool → ℤ × Bool
  | [], _, _, _, _, _, _ => (0, false)
  | c :: cs, neg, dot, m, r, l, first =>
    if dot then
      if digit? c then
        parseLoop cs neg true m ((r * 10 + digitVal c) % 2 ^ 64) (l * 10 % 2 ^ 64) false
      else
        match parseUnit (c :: cs) with
        | none => (0, false)
        | some unit =>
          let R := fracPart r l unit.toNat
          if neg then
            if 2 ^ 63 / unit.toNat < m then (0, false)
            else (wrap64 (-wrap64 (wrap64 (uToInt64 m * unit) + uToInt64 R)), true)
          else
            if MaxSize.toNat / unit.toNat < m then (0, false)
            else
              let s := wrap64 (wrap64 (uToInt64 m * unit) + uToInt64 R)
              if s = minSize then (MaxSize, true) else (s, true)
    else
      if digit? c then
        parseLoop cs neg false ((m * 10 + digitVal c) % 2 ^ 64) r l false
      else if c = '.' then
        parseLoop cs neg true m r l false
      else if first then (0, false)
      else
        match parseUnit (c :: cs) with
        | none => (0, false)
        | some unit =>
          if neg then
            if 2 ^ 63 / unit.toNat < m then (0, false)
            else (wrap64 (wrap64 (-uToInt64 m) * unit), true)
          else
            if MaxSize.toNat / unit.toNat < m then (0, false)
            else (wrap64 (uToInt64 m * unit), true)

/-- `func ParseSize(s string) (Size, error)`. -/
def ParseSize (s : List Char) : ℤ × Bool :=
  if s = [] then (0, false)
  else
    let p := stripSign s
    parseLoop p.2 p.1 false 0 0 1 true

/-! ### `func FormatSize` and `func fmtSize` (`format.go`) -/

/-- `func fmtSize(v, base Size, prec int, unit string) []byte`: quotient
and remainder at `base`, then the remainder printed as a float64 fraction
at the requested precision (`rbuf[1:]` drops the leading `0`). -/
def fmtSize (v base : ℤ) (prec : ℤ) (unit : List Char) : List Char :=
  let m := Int.tdiv v base
  let r := Int.tmod v base
  if r = 0 ∧ prec ≤ 0 then intToStr m ++ unit
  else if r = 0 then
    intToStr m ++ '.' :: (List.replicate prec.toNat '0' ++ unit)
  else
    let r1 := if r < 0 then -r else r
    let rbuf := appendFloat (f64div (f64ofNat r1.toNat) (f64ofNat base.toNat)) prec
    (if v < 0 ∧ m = 0 then ['-'] else []) ++ intToStr m ++ (rbuf.drop 1 ++ unit)

/-- `func FormatSize(s Size, fmt byte, prec int) string`. -/
def FormatSize (s : ℤ) (f : Char) (prec : ℤ) : List Char :=
  if s = 0 then
    -- Optimized path for the zero value
    if f = 'd' ∨ f = 'b' then ['0', 'b']
    else if f = 'D' ∨ f = 'B' then ['0', 'B']
    else if f = 'i' then ['0', 'b', 'i', 't']
    else if f = 'I' then ['0', 'B', 'i', 't']
    else ['%', f]
  else if f = 'd' ∨ f = 'D' then
    let up := f = 'D'
    if PB ≤ s ∨ s ≤ -PB then
      fmtSize s PB prec (if up then ['P', 'B'] else ['p', 'b'])
    else if TB ≤ s ∨ s ≤ -TB then
      fmtSize s TB prec (if up then ['T', 'B'] else ['t', 'b'])
    else if GB ≤ s ∨ s ≤ -GB then
      fmtSize s GB prec (if up then ['G', 'B'] else ['g', 'b'])
    else if MB ≤ s ∨ s ≤ -MB then
      fmtSize s MB prec (if up then ['M', 'B'] else ['m', 'b'])
    else if KB ≤ s ∨ s ≤ -KB then
      fmtSize s KB prec (if up then ['K', 'B'] else ['k', 'b'])
    else
      fmtSize s Byte prec (if up then ['B'] else ['b'])
  else if f = 'b' ∨ f = 'B' then
    let up := f = 'B'
    if PiB ≤ s ∨ s ≤ -PiB then
      fmtSize s PiB prec (if up then ['P', 'i', 'B'] else ['p', 'i', 'b'])
    else if TiB ≤ s ∨ s ≤ -TiB then
      fmtSize s TiB prec (if up then ['T', 'i', 'B'] else ['t', 'i', 'b'])
    else if GiB ≤ s ∨ s ≤ -GiB then
      fmtSize s GiB prec (if up then ['G', 'i', 'B'] else ['g', 'i', 'b'])
    else if MiB ≤ s ∨ s ≤ -MiB then
      fmtSize s MiB prec (if up then ['M', 'i', 'B'] else ['m', 'i', 'b'])
    else if KiB ≤ s ∨ s ≤ -KiB then
      fmtSize s KiB prec (if up then ['K', 'i', 'B'] else ['k', 'i', 'b'])
    else
      fmtSize s Byte prec (if up then ['B'] else ['b'])
  else if f = 'i' ∨ f = 'I' then
    let up := f = 'I'
    if TBit ≤ s ∨ s ≤ -TBit then
      fmtSize s TBit prec (if up then ['T', 'b', 'i', 't'] else ['t', 'b', 'i', 't'])
    else if GBit ≤ s ∨ s ≤ -GBit then
      fmtSize s GBit prec (if up then ['G', 'b', 'i', 't'] else ['g', 'b', 'i', 't'])
    else if MBit ≤ s ∨ s ≤ -MBit then
      fmtSize s MBit prec (if up then ['M', 'b', 'i', 't'] else ['m', 'b', 'i', 't'])
    else if KBit ≤ s ∨ s ≤ -KBit then
      fmtSize s KBit prec (if up then ['K', 'b', 'i', 't'] else ['k', 'b', 'i', 't'])
    else
      intToStr s ++ (if up then ['B', 'i', 't'] else ['b', 'i', 't'])
  else ['%', f]

/-! ### Bandwidth (`bandwidth.go`, `format.go`) -/

/-- Modelled from the spec: `Size.PerSecond` is not among the provided
source files (only its caller `ParseBandwidth` is).  Per §4.5 the
throughput type "structurally delegates ... by reinterpreting its own
integer storage as a Quantity": `PerSecond` reinterprets the `Size` as a
`Bandwidth` unchanged. -/
def PerSecond (s : ℤ) : ℤ := s

/-- `strings.HasSuffix(s, "/s")`. -/
def hasSuffixSlashS (s : List Char) : Bool :=
  2 ≤ s.length && s.drop (s.length - 2) = ['/', 's']

/-- `s[:len(s)-2]`. -/
def stripSlashS (s : List Char) : List Char := s.take (s.length - 2)

/-- `func ParseBandwidth(s string) (Bandwidth, error)`: require the
literal `/s` suffix, strip it, delegate to `ParseSize`; both failure modes
return the same single bandwidth error (modelled as the Boolean). -/
def ParseBandwidth (s : List Char) : ℤ × Bool :=
  if hasSuffixSlashS s then
    let p := ParseSize (stripSlashS s)
    if p.2 then (PerSecond p.1, true) else (0, false)
  else (0, false)

/-- `func FormatBandwidth(b Bandwidth, fmt byte, prec int) string`. -/
def FormatBandwidth (b : ℤ) (f : Char) (prec : ℤ) : List Char :=
  FormatSize b f prec ++ ['/', 's']

/-! ### Input-shape predicates for the parser claims -/

/-- The numeral shape asserted by the claim (C5's frozen wording): an
optional sign, then one or more decimal digits, then optionally a `'.'`
followed by (one or more) digits, then a unit suffix from the closed
table with nothing after it. -/
def claimedNumeral (s : List Char) : Bool :=
  let body := (stripSign s).2
  let intPart := body.takeWhile digit?
  let rest := body.dropWhile digit?
  decide (intPart ≠ []) &&
    match rest with
    | '.' :: r2 =>
      let frac := r2.takeWhile digit?
      let rest2 := r2.dropWhile digit?
      decide (frac ≠ []) && (parseUnit rest2).isSome
    | r => (parseUnit r).isSome

/-- The shape the parse loop actually accepts, mirrored from the source:
digits, at most one dot (digits before the unit are required only when no
dot occurs), then a unit suffix from the closed table. -/
def formOk : List Char → Bool → Bool → Bool
  | [], _, _ => false
  | c :: cs, dot, first =>
    if dot then
      if digit? c then formOk cs true false
      else (parseUnit (c :: cs)).isSome
    else
      if digit? c then formOk cs false false
      else if c = '.' then formOk cs true false
      else if first then false
      else (parseUnit (c :: cs)).isSome

/-- The accepted input grammar of `ParseSize`:
`sign? (digit+ unit | digit* '.' digit* unit)` with `unit` from the closed
table. -/
def grammarOk (s : List Char) : Bool :=
  if s = [] then false else formOk (stripSign s).2 false true

end Mem

namespace MemBytes

/-! ### The byte-denominated revision (`bitsize.go` / `size.go`)

`Size` counts bytes, `BitSize` counts bits; both are `int64`. -/

/-- `func (b BitSize) Bytes() (Size, BitSize)`: `(b / 8, b % 8)` with Go's
truncating division. -/
def Bytes (b : ℤ) : ℤ × ℤ := (Int.tdiv b 8, Int.tmod b 8)

/-- `func (s Size) Bits() BitSize`: `8 * s`, saturating to
`math.MaxInt64` / `math.MinInt64` when out of range (`math.MaxInt64/8`
is Go's truncating `int64` division). -/
def Bits (s : ℤ) : ℤ :=
  if Int.tdiv (2 ^ 63 - 1) 8 < s then 2 ^ 63 - 1
  else if s < Int.tdiv (-(2 ^ 63)) 8 then -(2 ^ 63)
  else 8 * s

end MemBytes

namespace Mem

/-! ## Arithmetic helper lemmas -/

theorem tmod_neg_eq (a b : ℤ) : Int.tmod (-a) b = -Int.tmod a b := by
  have h1 := Int.tdiv_add_tmod a b
  have h2 := Int.tdiv_add_tmod (-a) b
  rw [Int.neg_tdiv] at h2
  linarith

theorem tmod_bounds_pos {v m : ℤ} (hv : 0 ≤ v) (hm : 0 < m) :
    0 ≤ Int.tmod v m ∧ Int.tmod v m < m :=
  ⟨Int.tmod_nonneg _ hv, Int.tmod_lt_of_pos _ hm⟩

theorem tmod_bounds_neg {v m : ℤ} (hv : v < 0) (hm : 0 < m) :
    -m < Int.tmod v m ∧ Int.tmod v m ≤ 0 := by
  have h := tmod_neg_eq (-v) m
  rw [neg_neg] at h
  have h1 : 0 ≤ Int.tmod (-v) m := Int.tmod_nonneg _ (by linarith)
  have h2 : Int.tmod (-v) m < m := Int.tmod_lt_of_pos _ hm
  constructor <;> omega

theorem wrap64_eq_self {z : ℤ} (h1 : -(2 ^ 63) ≤ z) (h2 : z < 2 ^ 63) :
    wrap64 z = z := by
  unfold wrap64
  rw [Int.emod_eq_of_lt (by linarith) (by norm_num; linarith)]
  ring

theorem wrap64_eq_sub {z : ℤ} (h1 : 2 ^ 63 ≤ z) (h2 : z < 2 ^ 64 + 2 ^ 63) :
    wrap64 z = z - 2 ^ 64 := by
  unfold wrap64
  have hz : z + 2 ^ 63 = (z + 2 ^ 63 - 2 ^ 64) + 2 ^ 64 * 1 := by ring
  rw [hz, Int.add_mul_emod_self_left,
    Int.emod_eq_of_lt (by linarith) (by linarith)]
  ring

theorem toUns_of_nonneg {z : ℤ} (h1 : 0 ≤ z) (h2 : z < 2 ^ 64) : toUns z = z :=
  Int.emod_eq_of_lt h1 h2

theorem toUns_of_neg {z : ℤ} (h1 : -(2 ^ 64) ≤ z) (h2 : z < 0) :
    toUns z = z + 2 ^ 64 := by
  unfold toUns
  have hz : z = (z + 2 ^ 64) + 2 ^ 64 * (-1) := by ring
  conv_lhs => rw [hz]
  rw [Int.add_mul_emod_self_left,
    Int.emod_eq_of_lt (by linarith) (by linarith)]

theorem lessThanHalf_of_nonneg {r m : ℤ} (hr : 0 ≤ r) (hr2 : r < 2 ^ 63)
    (hm : 0 ≤ m) (hm2 : m < 2 ^ 64) :
    lessThanHalf r m = true ↔ 2 * r < m := by
  unfold lessThanHalf
  rw [toUns_of_nonneg hr (by linarith), toUns_of_nonneg hm hm2,
    Int.emod_eq_of_lt (by linarith) (by linarith)]
  simp only [decide_eq_true_eq]
  omega

theorem lessThanHalf_of_neg {v m : ℤ} (hv1 : -(2 ^ 63) ≤ v) (hv : v < 0)
    (hm : 0 ≤ m) (hm2 : m < 2 ^ 64) :
    lessThanHalf v m = true ↔ 2 * v + 2 ^ 64 < m := by
  unfold lessThanHalf
  rw [toUns_of_neg (by linarith) hv, toUns_of_nonneg hm hm2]
  have hz : v + 2 ^ 64 + (v + 2 ^ 64) = (2 * v + 2 ^ 64) + 2 ^ 64 * 1 := by ring
  rw [hz, Int.add_mul_emod_self_left,
    Int.emod_eq_of_lt (by linarith) (by linarith)]
  simp only [decide_eq_true_eq]

/-! ## Claim theorems: saturating primitives -/

/-- Claim C2 (code evaluated at the failing input): `round(-1400, 1000)`
returns `-2000`, although `-1000` is a multiple of `1000` strictly nearer
to `-1400` (`|Δ| = 400 < 600`); the negative branch tests
`lessThanHalf(v, m)` on the value rather than the normalized remainder
`r = 400`, contradicting the documented nearest-multiple contract. -/
theorem round_neg1400_1000_not_nearest :
    round (-1400) 1000 = -2000 ∧ Int.tmod (-1400) 1000 = -400 ∧
    Int.tmod (-1000) 1000 = 0 ∧
    ((-1400 : ℤ) - -1000).natAbs < ((-1400 : ℤ) - -2000).natAbs := by
  decide

/-- Claim C8: `truncate(v, m)` is the identity for `m ≤ 0`, and for
`m > 0` it equals `v - v % m` (truncating remainder), a multiple of `m`
obtained by rounding `v` towards zero with error less than `m`; in
particular `truncate 26 8 = 24` and `truncate (-1111) 10 = -1110`. -/
theorem truncate_toward_zero :
    (∀ v m : ℤ, m ≤ 0 → truncate v m = v) ∧
    (∀ v m : ℤ, 0 < m →
      truncate v m = v - Int.tmod v m ∧
      m ∣ truncate v m ∧
      (0 ≤ v → 0 ≤ truncate v m ∧ truncate v m ≤ v ∧ v - truncate v m < m) ∧
      (v < 0 → v ≤ truncate v m ∧ truncate v m ≤ 0 ∧ truncate v m - v < m)) ∧
    truncate 26 8 = 24 ∧ truncate (-1111) 10 = -1110 := by
  refine ⟨fun v m hm => by simp [truncate, hm], fun v m hm => ?_, by decide, by decide⟩
  have heq : truncate v m = v - Int.tmod v m := by
    simp [truncate, not_le.2 hm]
  refine ⟨heq, ⟨Int.tdiv v m, ?_⟩, fun hv => ?_, fun hv => ?_⟩
  · have h := Int.tdiv_add_tmod v m
    rw [heq]; linarith
  · have h := tmod_bounds_pos hv hm
    have hd : 0 ≤ Int.tdiv v m := Int.tdiv_nonneg hv (le_of_lt hm)
    have hdd := Int.tdiv_add_tmod v m
    have hmul : 0 ≤ m * Int.tdiv v m := mul_nonneg (le_of_lt hm) hd
    rw [heq]
    refine ⟨by linarith, by linarith [h.1], by linarith [h.2]⟩
  · have h := tmod_bounds_neg hv hm
    have hd : Int.tdiv v m ≤ 0 := by
      have h1 : 0 ≤ Int.tdiv (-v) m := Int.tdiv_nonneg (by linarith) (le_of_lt hm)
      have h2 := Int.neg_tdiv v m
      omega
    have hdd := Int.tdiv_add_tmod v m
    have hmul : m * Int.tdiv v m ≤ 0 := mul_nonpos_of_nonneg_of_nonpos (le_of_lt hm) hd
    rw [heq]
    refine ⟨by linarith, by linarith, by linarith [h.1]⟩

/-- Concrete witness for `truncate_toward_zero`. -/
theorem truncate_toward_zero_witness :
    truncate 5 0 = 5 ∧ truncate 26 8 = 26 - Int.tmod 26 8 ∧ (8 : ℤ) ∣ truncate 26 8 :=
  ⟨truncate_toward_zero.1 5 0 (by decide),
   (truncate_toward_zero.2.1 26 8 (by decide)).1,
   (truncate_toward_zero.2.1 26 8 (by decide)).2.1⟩

/-- Claim C4, counterexample to the negative-direction sentinel: for
`v = -2^63 + 1`, `m = 1000` the away-from-zero rounded value
`v - (m - r) = -2^63 - 192` lies below the representable range (and
`2r ≥ m`, so the half-test mandates rounding away), yet `round` returns
the in-range multiple `-2^63 + 808`, not the claimed
one-more-than-the-minimum sentinel `-2^63 + 1`. -/
theorem round_neg_overflow_not_min_plus_one :
    round (-(2 ^ 63) + 1) 1000 = -(2 ^ 63) + 808 ∧
    (-(2 ^ 63) + 808 : ℤ) ≠ -(2 ^ 63) + 1 ∧
    1000 ≤ 2 * -Int.tmod (-(2 ^ 63) + 1) 1000 ∧
    -(2 ^ 63) + 1 - (1000 - -Int.tmod (-(2 ^ 63) + 1) 1000) < -(2 ^ 63) := by
  decide

/-- Claim C4 (amended): when the rounded result would exceed the
representable range, `round` saturates instead of wrapping — in the
positive direction it returns the maximum `2^63 - 1` (in particular
`round (2^63-1) 2 = 2^63-1`), and in the negative direction it returns
the nearest representable multiple toward zero, `v + r` with `r` the
normalized remainder (not a sentinel). -/
theorem round_saturates :
    ∀ v m : ℤ, -(2 ^ 63) ≤ v → v ≤ 2 ^ 63 - 1 → 0 < m → m ≤ 2 ^ 63 - 1 →
      (0 ≤ v → m ≤ 2 * Int.tmod v m → 2 ^ 63 - 1 < v + (m - Int.tmod v m) →
        round v m = 2 ^ 63 - 1) ∧
      (v < 0 → m ≤ 2 * -Int.tmod v m → v - (m - -Int.tmod v m) < -(2 ^ 63) →
        round v m = v + -Int.tmod v m) := by
  intro v m hv1 hv2 hm hm2
  constructor
  · intro hv hhalf hov
    have hr := tmod_bounds_pos hv hm
    have hlth : lessThanHalf (Int.tmod v m) m = false := by
      rw [Bool.eq_false_iff, ne_eq,
        lessThanHalf_of_nonneg hr.1 (by linarith) (le_of_lt hm) (by linarith)]
      omega
    have hwrap : wrap64 (v + m - Int.tmod v m) = v + m - Int.tmod v m - 2 ^ 64 :=
      wrap64_eq_sub (by linarith) (by linarith)
    simp only [round, not_le.2 hm, if_false, not_lt.2 hv, if_true, hlth,
      Bool.false_eq_true, hwrap]
    have hlt : ¬ (v + m - Int.tmod v m - 2 ^ 64 > v) := by omega
    simp only [hlt, if_false, MaxSize]
  · intro hv hhalf hov
    have hr := tmod_bounds_neg hv hm
    have hlth : lessThanHalf v m = true := by
      rw [lessThanHalf_of_neg hv1 hv (le_of_lt hm) (by linarith)]
      omega
    have hwrap : wrap64 (v + -Int.tmod v m) = v + -Int.tmod v m :=
      wrap64_eq_self (by omega) (by omega)
    simp only [round, not_le.2 hm, if_false, hv, if_true, hlth, hwrap]

/-- Concrete witness for `round_saturates`: saturation at the top of the
range and the toward-zero result near the bottom. -/
theorem round_saturates_witness :
    round (2 ^ 63 - 1) 2 = 2 ^ 63 - 1 ∧
    round (-(2 ^ 63) + 1) 1000 = -(2 ^ 63) + 808 := by
  constructor
  · exact (round_saturates (2 ^ 63 - 1) 2 (by decide) (by decide) (by decide)
      (by decide)).1 (by decide) (by decide) (by decide)
  · exact ((round_saturates (-(2 ^ 63) + 1) 1000 (by decide) (by decide) (by decide)
      (by decide)).2 (by decide) (by decide) (by decide)).trans (by decide)

end Mem

namespace Mem

/-! ## Parser lemmas -/

theorem parseUnit_pos {cs : List Char} {u : ℤ} (h : parseUnit cs = some u) :
    0 < u ∧ u ≤ 2 ^ 53 := by
  unfold parseUnit at h
  cases hf : List.find? (fun e => e.1 = cs) unitTable with
  | none => rw [hf] at h; exact Option.noConfusion h
  | some p =>
    rw [hf] at h
    have hmem : p ∈ unitTable := List.mem_of_find?_eq_some hf
    have hall : ∀ q ∈ unitTable, 0 < q.2 ∧ q.2 ≤ 2 ^ 53 := by decide
    have hpu : p.2 = u := by simpa using h
    exact hpu ▸ hall p hmem

/-- Every result of the parse loop is either the error pair `(0, false)`
or a success `(·, true)`. -/
theorem parseLoop_shape (cs : List Char) : ∀ neg dot : Bool, ∀ m r l : ℕ,
    ∀ first : Bool,
    parseLoop cs neg dot m r l first = (0, false) ∨
      (parseLoop cs neg dot m r l first).2 = true := by
  induction cs with
  | nil => intro neg dot m r l first; left; rfl
  | cons c cs ih =>
    intro neg dot m r l first
    rw [parseLoop]
    cases dot
    · rw [if_neg Bool.false_ne_true]
      by_cases hd : digit? c = true
      · rw [if_pos hd]; exact ih _ _ _ _ _ _
      · rw [if_neg hd]
        by_cases hc : c = '.'
        · rw [if_pos hc]; exact ih _ _ _ _ _ _
        · rw [if_neg hc]
          by_cases hf : first = true
          · rw [if_pos hf]; left; rfl
          · rw [if_neg hf]
            cases hu : parseUnit (c :: cs) with
            | none => left; rfl
            | some u =>
              dsimp only
              cases neg
              · rw [if_neg Bool.false_ne_true]
                by_cases hg : MaxSize.toNat / u.toNat < m
                · rw [if_pos hg]; left; rfl
                · rw [if_neg hg]; right; rfl
              · rw [if_pos rfl]
                by_cases hg : 2 ^ 63 / u.toNat < m
                · rw [if_pos hg]; left; rfl
                · rw [if_neg hg]; right; rfl
    · rw [if_pos rfl]
      by_cases hd : digit? c = true
      · rw [if_pos hd]; exact ih _ _ _ _ _ _
      · rw [if_neg hd]
        cases hu : parseUnit (c :: cs) with
        | none => left; rfl
        | some u =>
          dsimp only
          cases neg
          · rw [if_neg Bool.false_ne_true]
            by_cases hg : MaxSize.toNat / u.toNat < m
            · rw [if_pos hg]; left; rfl
            · rw [if_neg hg]
              by_cases hs : wrap64 (wrap64 (uToInt64 m * u) + uToInt64 (fracPart r l u.toNat)) = minSize
              · rw [if_pos hs]; right; rfl
              · rw [if_neg hs]; right; rfl
          · rw [if_pos rfl]
            by_cases hg : 2 ^ 63 / u.toNat < m
            · rw [if_pos hg]; left; rfl
            · rw [if_neg hg]; right; rfl

/-- On the unsigned path (`neg = false`) the integer return value of the
parse loop is bounded by the overflow guard and cannot be the minimum. -/
theorem parseLoop_int_ne_min {m : ℕ} {u : ℤ} (hu : 0 < u ∧ u ≤ 2 ^ 53)
    (hg : ¬ (MaxSize.toNat / u.toNat < m)) :
    wrap64 (uToInt64 m * u) ≠ minSize := by
  have hcast : (u.toNat : ℤ) = u := Int.toNat_of_nonneg (le_of_lt hu.1)
  have hu0 : 0 < u.toNat := by omega
  have hm1 : m ≤ MaxSize.toNat / u.toNat := not_lt.1 hg
  have hmbound : m * u.toNat ≤ MaxSize.toNat := (Nat.le_div_iff_mul_le hu0).1 hm1
  have hmaxcast : ((MaxSize.toNat : ℕ) : ℤ) = 2 ^ 63 - 1 := by decide
  have h1 : ((m * u.toNat : ℕ) : ℤ) ≤ ((MaxSize.toNat : ℕ) : ℤ) := by
    exact_mod_cast hmbound
  have h2 : (m : ℤ) * u = ((m * u.toNat : ℕ) : ℤ) := by push_cast; rw [hcast]
  have hm3 : m ≤ MaxSize.toNat := le_trans hm1 (Nat.div_le_self _ _)
  have hm4 : ((m : ℕ) : ℤ) ≤ ((MaxSize.toNat : ℕ) : ℤ) := by exact_mod_cast hm3
  have hmi : uToInt64 m = (m : ℤ) := wrap64_eq_self (by omega) (by omega)
  rw [hmi, h2, wrap64_eq_self (by omega) (by omega)]
  simp only [minSize]
  omega

/-- On the unsigned path (`neg = false`) the parse loop never returns the
raw minimum: the integer path is bounded by the overflow guard and the
fractional path remaps an exact-minimum wrap to `MaxSize`. -/
theorem parseLoop_pos_ne_min (cs : List Char) : ∀ dot : Bool, ∀ m r l : ℕ,
    ∀ first : Bool,
    (parseLoop cs false dot m r l first).1 ≠ minSize := by
  induction cs with
  | nil => intro dot m r l first; simp [parseLoop, minSize]
  | cons c cs ih =>
    intro dot m r l first
    rw [parseLoop]
    cases dot
    · rw [if_neg Bool.false_ne_true]
      by_cases hd : digit? c = true
      · rw [if_pos hd]; exact ih _ _ _ _ _
      · rw [if_neg hd]
        by_cases hc : c = '.'
        · rw [if_pos hc]; exact ih _ _ _ _ _
        · rw [if_neg hc]
          by_cases hf : first = true
          · rw [if_pos hf]; simp [minSize]
          · rw [if_neg hf]
            cases hu : parseUnit (c :: cs) with
            | none => simp [minSize]
            | some u =>
              dsimp only
              rw [if_neg Bool.false_ne_true]
              by_cases hg : MaxSize.toNat / u.toNat < m
              · rw [if_pos hg]; simp [minSize]
              · rw [if_neg hg]
                exact parseLoop_int_ne_min (parseUnit_pos hu) hg
    · rw [if_pos rfl]
      by_cases hd : digit? c = true
      · rw [if_pos hd]; exact ih _ _ _ _ _
      · rw [if_neg hd]
        cases hu : parseUnit (c :: cs) with
        | none => simp [minSize]
        | some u =>
          dsimp only
          rw [if_neg Bool.false_ne_true]
          by_cases hg : MaxSize.toNat / u.toNat < m
          · rw [if_pos hg]; simp [minSize]
          · rw [if_neg hg]
            by_cases hs : wrap64 (wrap64 (uToInt64 m * u) + uToInt64 (fracPart r l u.toNat)) = minSize
            · rw [if_pos hs]; simp [MaxSize, minSize]
            · rw [if_neg hs]; exact hs

/-- A successful parse loop run means the remaining input has the shape
accepted by `formOk`. -/
theorem parseLoop_form (cs : List Char) : ∀ neg dot : Bool, ∀ m r l : ℕ,
    ∀ first : Bool,
    (parseLoop cs neg dot m r l first).2 = true → formOk cs dot first = true := by
  induction cs with
  | nil => intro neg dot m r l first h; simp [parseLoop] at h
  | cons c cs ih =>
    intro neg dot m r l first h
    rw [parseLoop] at h
    rw [formOk]
    cases dot
    · rw [if_neg Bool.false_ne_true] at h ⊢
      by_cases hd : digit? c = true
      · rw [if_pos hd] at h ⊢; exact ih _ _ _ _ _ _ h
      · rw [if_neg hd] at h ⊢
        by_cases hc : c = '.'
        · rw [if_pos hc] at h ⊢; exact ih _ _ _ _ _ _ h
        · rw [if_neg hc] at h ⊢
          by_cases hf : first = true
          · rw [if_pos hf] at h; simp at h
          · rw [if_neg hf] at h ⊢
            cases hu : parseUnit (c :: cs) with
            | none => rw [hu] at h; simp at h
            | some u => simp [hu]
    · rw [if_pos rfl] at h ⊢
      by_cases hd : digit? c = true
      · rw [if_pos hd] at h ⊢; exact ih _ _ _ _ _ _ h
      · rw [if_neg hd] at h ⊢
        cases hu : parseUnit (c :: cs) with
        | none => rw [hu] at h; simp at h
        | some u => simp [hu]

/-- If the head of the input is not `'-'`, the stripped sign is positive. -/
theorem stripSign_not_neg {s : List Char} (h : s.head? ≠ some '-') :
    (stripSign s).1 = false := by
  cases s with
  | nil => rfl
  | cons c cs =>
    have hc : c ≠ '-' := by
      intro he; exact h (by rw [he]; rfl)
    unfold stripSign
    dsimp only
    by_cases h1 : c = '+' ∨ c = '-'
    · rw [if_pos h1]
      simp [hc]
    · rw [if_neg h1]

/-! ## Claim theorems: parser invariants -/

/-- Claim C3, counterexample: a successful `ParseSize` of `"-1024PiB"`
returns the raw `int64` minimum, and `round` at `v = -2^63 + 5`, `m = 9`
also returns the raw minimum — the minimum does escape public operations. -/
theorem parseSize_and_round_return_minimum :
    ParseSize ['-', '1', '0', '2', '4', 'P', 'i', 'B'] = (-(2 ^ 63), true) ∧
    round (-(2 ^ 63) + 5) 9 = -(2 ^ 63) := by
  decide

/-- Claim C3 (amended): `abs` never returns the raw minimum, and a
`ParseSize` of a string without a leading `'-'` never returns it (an
exact-minimum wrap on the unsigned path is remapped to the maximum);
`round` and a negative parse can return the minimum. -/
theorem abs_and_unsigned_parse_avoid_minimum :
    (∀ v : ℤ, -(2 ^ 63) ≤ v → v < 2 ^ 63 → abs v ≠ -(2 ^ 63)) ∧
    (∀ s : List Char, s.head? ≠ some '-' → (ParseSize s).1 ≠ -(2 ^ 63)) := by
  constructor
  · intro v h1 h2
    unfold abs
    split_ifs with ha hb
    · omega
    · simp [MaxSize]
    · simp only [minSize] at hb
      omega
  · intro s hs
    unfold ParseSize
    split_ifs with he
    · simp [minSize]
    · dsimp only
      have hneg := stripSign_not_neg hs
      rw [hneg]
      have h := parseLoop_pos_ne_min (stripSign s).2 false 0 0 1 true
      simpa [minSize] using h

/-- Concrete witness for `abs_and_unsigned_parse_avoid_minimum`. -/
theorem abs_and_unsigned_parse_avoid_minimum_witness :
    abs (-(2 ^ 63)) ≠ -(2 ^ 63) ∧ (ParseSize ['1', 'b']).1 ≠ -(2 ^ 63) :=
  ⟨abs_and_unsigned_parse_avoid_minimum.1 (-(2 ^ 63)) (by decide) (by decide),
   abs_and_unsigned_parse_avoid_minimum.2 ['1', 'b'] (by decide)⟩

/-- Claim C5, counterexample: `".b"` is not of the claimed form (no digits
at all, in particular none before the unit), yet `ParseSize` accepts it
and returns `0`: the dot may appear at position zero with no digits. -/
theorem parseSize_accepts_bare_dot_unit :
    claimedNumeral ['.', 'b'] = false ∧ ParseSize ['.', 'b'] = (0, true) := by
  decide

/-- Claim C5 (amended): `ParseSize` fails on every string outside the
grammar `sign? (digit+ unit | digit* '.' digit* unit)` with `unit` from
the closed table and nothing trailing; in particular the empty string,
whitespace, double signs, double dots, a bare numeral and a bare unit all
fail. -/
theorem parseSize_rejects_outside_grammar :
    (∀ s : List Char, grammarOk s = false → (ParseSize s).2 = false) ∧
    ParseSize [] = (0, false) ∧
    ParseSize [' ', '0', 'B'] = (0, false) ∧
    ParseSize ['0', 'B', ' '] = (0, false) ∧
    ParseSize ['-', '-', '1', 'b'] = (0, false) ∧
    ParseSize ['+', '-', '0', 'b'] = (0, false) ∧
    ParseSize ['1', '.', '2', '.', '3', 'b'] = (0, false) ∧
    ParseSize ['1', '2', '3'] = (0, false) ∧
    ParseSize ['b'] = (0, false) := by
  refine ⟨?_, by decide, by decide, by decide, by decide, by decide, by decide,
    by decide, by decide⟩
  intro s hg
  by_contra h
  have h2 : (ParseSize s).2 = true := by
    cases hb : (ParseSize s).2
    · exact absurd hb h
    · rfl
  by_cases he : s = []
  · rw [he] at h2
    exact absurd h2 (by decide)
  · unfold ParseSize at h2
    rw [if_neg he] at h2
    dsimp only at h2
    have hform := parseLoop_form (stripSign s).2 (stripSign s).1 false 0 0 1 true h2
    unfold grammarOk at hg
    rw [if_neg he, hform] at hg
    exact absurd hg (by simp)

/-- Concrete witness for `parseSize_rejects_outside_grammar`. -/
theorem parseSize_rejects_outside_grammar_witness :
    (ParseSize ['1', 'x', 'b']).2 = false :=
  parseSize_rejects_outside_grammar.1 ['1', 'x', 'b'] (by decide)

/-- Claim C10: whenever `ParseSize` or `ParseBandwidth` reports an error,
the accompanying value is exactly `0`. -/
theorem parse_error_value_zero :
    (∀ s : List Char, (ParseSize s).2 = false → (ParseSize s).1 = 0) ∧
    (∀ s : List Char, (ParseBandwidth s).2 = false → (ParseBandwidth s).1 = 0) := by
  have hsize : ∀ s : List Char, (ParseSize s).2 = false → (ParseSize s).1 = 0 := by
    intro s h
    unfold ParseSize at h ⊢
    split_ifs at h ⊢ with he
    · rfl
    · rcases parseLoop_shape (stripSign s).2 (stripSign s).1 false 0 0 1 true with hz | ht
      · dsimp only at hz ⊢
        rw [hz]
      · dsimp only at h
        rw [ht] at h; simp at h
  refine ⟨hsize, fun s h => ?_⟩
  unfold ParseBandwidth at h ⊢
  split_ifs at h ⊢ with h1
  · by_cases h2 : (ParseSize (stripSlashS s)).2 = true
    · dsimp only at h
      rw [if_pos h2] at h; simp at h
    · dsimp only
      rw [if_neg h2]
  · rfl

/-- Concrete witness for `parse_error_value_zero`. -/
theorem parse_error_value_zero_witness :
    (ParseSize ['z']).1 = 0 ∧ (ParseBandwidth ['z']).1 = 0 :=
  ⟨parse_error_value_zero.1 ['z'] (by decide),
   parse_error_value_zero.2 ['z'] (by decide)⟩

end Mem

namespace MemBytes

/-! ## Claim theorem: bit/byte conversion (byte-denominated revision) -/

/-- Claim C6: for every `BitSize b`, the pair `(bytes, bits) = b.Bytes()`
satisfies `bytes.Bits() + bits = b` with `bits ∈ [-7, 7]`. -/
theorem bits_bytes_roundtrip :
    ∀ b : ℤ, -(2 ^ 63) ≤ b → b < 2 ^ 63 →
      Bits (Bytes b).1 + (Bytes b).2 = b ∧
        -7 ≤ (Bytes b).2 ∧ (Bytes b).2 ≤ 7 := by
  intro b h1 h2
  have hdm := Int.tdiv_add_tmod b 8
  have hmax : Int.tdiv (2 ^ 63 - 1) 8 = 1152921504606846975 := by decide
  have hmin : Int.tdiv (-(2 ^ 63)) 8 = -1152921504606846976 := by decide
  unfold Bytes Bits
  dsimp only
  rw [hmax, hmin]
  by_cases hb : 0 ≤ b
  · have ht := Mem.tmod_bounds_pos hb (by norm_num : (0 : ℤ) < 8)
    have hq0 : 0 ≤ Int.tdiv b 8 := Int.tdiv_nonneg hb (by norm_num)
    rw [if_neg (by omega), if_neg (by omega)]
    exact ⟨by omega, by omega, by omega⟩
  · have hb2 : b < 0 := not_le.1 hb
    have ht := Mem.tmod_bounds_neg hb2 (by norm_num : (0 : ℤ) < 8)
    have hq0 : Int.tdiv b 8 ≤ 0 := by
      have h3 : 0 ≤ Int.tdiv (-b) 8 := Int.tdiv_nonneg (by omega) (by norm_num)
      have h4 := Int.neg_tdiv b 8
      omega
    rw [if_neg (by omega), if_neg (by omega)]
    exact ⟨by omega, by omega, by omega⟩

/-- Concrete witness for `bits_bytes_roundtrip`. -/
theorem bits_bytes_roundtrip_witness :
    Bits (Bytes 20).1 + (Bytes 20).2 = 20 ∧
      -7 ≤ (Bytes 20).2 ∧ (Bytes 20).2 ≤ 7 :=
  bits_bytes_roundtrip 20 (by decide) (by decide)

end MemBytes

namespace Mem

/-! ## Claim theorem: bandwidth delegation -/

/-- Claim C9: `FormatBandwidth` is `FormatSize` with `"/s"` appended, and
`ParseBandwidth` succeeds exactly when the input ends in `"/s"` and
`ParseSize` accepts the prefix, in which case it returns that parsed
value; otherwise it returns the single bandwidth error with value `0`. -/
theorem bandwidth_delegates :
    (∀ b : ℤ, ∀ f : Char, ∀ p : ℤ,
      FormatBandwidth b f p = FormatSize b f p ++ ['/', 's']) ∧
    (∀ s : List Char,
      ((ParseBandwidth s).2 = true ↔
        hasSuffixSlashS s = true ∧ (ParseSize (stripSlashS s)).2 = true) ∧
      ((ParseBandwidth s).2 = true →
        (ParseBandwidth s).1 = (ParseSize (stripSlashS s)).1) ∧
      ((ParseBandwidth s).2 = false → (ParseBandwidth s).1 = 0)) := by
  refine ⟨fun b f p => rfl, fun s => ?_⟩
  unfold ParseBandwidth
  by_cases h1 : hasSuffixSlashS s = true
  · rw [if_pos h1]
    dsimp only
    by_cases h2 : (ParseSize (stripSlashS s)).2 = true
    · rw [if_pos h2]
      refine ⟨by simp [h1, h2], fun _ => ?_, by simp⟩
      simp [PerSecond]
    · rw [if_neg h2]
      exact ⟨by simp [h2], by simp, fun _ => rfl⟩
  · rw [if_neg h1]
    exact ⟨by simp [h1], by simp, fun _ => rfl⟩

/-- Concrete witness for `bandwidth_delegates`. -/
theorem bandwidth_delegates_witness :
    FormatBandwidth 8000000 'd' (-1) = FormatSize 8000000 'd' (-1) ++ ['/', 's'] ∧
    (ParseBandwidth ['1', 'b', '/', 's']).1 = (ParseSize ['1', 'b']).1 := by
  refine ⟨bandwidth_delegates.1 8000000 'd' (-1), ?_⟩
  have h := (bandwidth_delegates.2 ['1', 'b', '/', 's']).2.1 (by decide)
  exact h.trans (by decide)

end Mem

namespace Mem

/-! ## Decimal-string lemmas -/

theorem natToStrAux_succ (f n : ℕ) :
    natToStrAux (f + 1) n =
      if n < 10 then [digitChar n]
      else natToStrAux f (n / 10) ++ [digitChar (n % 10)] := rfl

theorem natToStrAux_ne_nil (f n : ℕ) : natToStrAux (f + 1) n ≠ [] := by
  rw [natToStrAux_succ]
  split_ifs
  · simp
  · simp

theorem natToStr_ne_nil (n : ℕ) : natToStr n ≠ [] := natToStrAux_ne_nil 255 n

theorem digitChar_zero {d : ℕ} (h : d < 10) (h0 : digitChar d = '0') : d = 0 := by
  interval_cases d <;> first | rfl | exact absurd h0 (by decide)

theorem natToStr_eq_zero {n : ℕ} (h : natToStr n = ['0']) : n = 0 := by
  unfold natToStr at h
  rw [show (256 : ℕ) = 255 + 1 from rfl, natToStrAux_succ] at h
  by_cases h10 : n < 10
  · rw [if_pos h10] at h
    have hd : digitChar n = '0' := by
      injection h
    exact digitChar_zero h10 hd
  · rw [if_neg h10] at h
    have hlen := congrArg List.length h
    simp only [List.length_append, List.length_cons, List.length_nil] at hlen
    have hpos : 1 ≤ (natToStrAux 255 (n / 10)).length :=
      List.length_pos.2 (natToStrAux_ne_nil 254 (n / 10))
    omega

theorem intToStr_length (z : ℤ) : 1 ≤ (intToStr z).length := by
  unfold intToStr
  split_ifs
  · simp
  · exact List.length_pos.2 (natToStr_ne_nil _)

theorem intToStr_eq_zero {z : ℤ} (h : intToStr z = ['0']) : z = 0 := by
  unfold intToStr at h
  split_ifs at h with hneg
  · have : '-' = '0' := by injection h
    exact absurd this (by decide)
  · have := natToStr_eq_zero h
    omega

theorem padDec_length (n p : ℕ) : p ≤ (padDec n p).length := by
  unfold padDec
  simp only [List.length_append, List.length_replicate]
  omega

theorem decString_length {p : ℕ} (hp : 1 ≤ p) (n : ℕ) :
    3 ≤ (decString n p).length := by
  unfold decString
  rw [if_neg (by omega)]
  simp only [List.length_append, List.length_cons]
  have h1 := List.length_pos.2 (natToStr_ne_nil (n / 10 ^ p))
  have h2 := padDec_length (n % 10 ^ p) p
  omega

theorem shortestAux_length (f : ℕ) : ∀ p : ℕ, 1 ≤ p → ∀ x : F64,
    3 ≤ (shortestAux f p x).length := by
  induction f with
  | zero => intro p hp x; exact decString_length hp _
  | succ f ih =>
    intro p hp x
    rw [shortestAux]
    split_ifs
    · exact decString_length hp _
    · exact ih (p + 1) (by omega) x

theorem appendFloat_shortest_length (x : F64) : 3 ≤ (appendFloat x (-1)).length := by
  unfold appendFloat
  rw [if_pos (by norm_num)]
  exact shortestAux_length 60 1 (by norm_num) x

/-! ## Formatter lemmas -/

theorem fmtSize_length (v base prec : ℤ) (unit : List Char) :
    1 + unit.length ≤ (fmtSize v base prec unit).length := by
  unfold fmtSize
  dsimp only
  split_ifs <;>
    · simp only [List.length_append, List.length_cons, List.length_nil,
        List.length_replicate, List.length_drop]
      have := intToStr_length (Int.tdiv v base)
      omega

/-- At the base unit (`Byte`, a one-character unit string) with shortest
precision, only `s = 0` can format to the two-character string `0` + unit:
a zero remainder forces the quotient digits to be `"0"`, and a non-zero
remainder forces at least four characters. -/
theorem fmtSize_byte_zero {s : ℤ} (u : Char)
    (h : fmtSize s Byte (-1) [u] = ['0', u]) : s = 0 := by
  have hdm := Int.tdiv_add_tmod s Byte
  unfold fmtSize at h
  dsimp only at h
  by_cases hr : Int.tmod s Byte = 0
  · rw [if_pos ⟨hr, by norm_num⟩] at h
    have hm : intToStr (Int.tdiv s Byte) = ['0'] := List.append_cancel_right h
    have hq := intToStr_eq_zero hm
    rw [hq, hr] at hdm
    simpa using hdm.symm
  · rw [if_neg (by tauto), if_neg hr] at h
    have hlen := congrArg List.length h
    have hfl := appendFloat_shortest_length
      (f64div (f64ofNat (if Int.tmod s Byte < 0 then -Int.tmod s Byte else Int.tmod s Byte).toNat)
        (f64ofNat Byte.toNat))
    have hil := intToStr_length (Int.tdiv s Byte)
    simp only [List.length_append, List.length_cons, List.length_nil,
      List.length_drop] at hlen
    split_ifs at hlen hfl <;>
      simp only [List.length_cons, List.length_nil] at hlen <;> omega

/-! ### Per-selector unfolding of `FormatSize` for non-zero sizes -/

theorem formatSize_d {s : ℤ} (hs : s ≠ 0) (prec : ℤ) :
    FormatSize s 'd' prec =
      if PB ≤ s ∨ s ≤ -PB then fmtSize s PB prec ['p', 'b']
      else if TB ≤ s ∨ s ≤ -TB then fmtSize s TB prec ['t', 'b']
      else if GB ≤ s ∨ s ≤ -GB then fmtSize s GB prec ['g', 'b']
      else if MB ≤ s ∨ s ≤ -MB then fmtSize s MB prec ['m', 'b']
      else if KB ≤ s ∨ s ≤ -KB then fmtSize s KB prec ['k', 'b']
      else fmtSize s Byte prec ['b'] := by
  unfold FormatSize
  rw [if_neg hs, if_pos (Or.inl rfl)]
  have hud : (('d' : Char) = 'D') = False := eq_false (by decide)
  dsimp only
  simp only [hud, if_false]

theorem formatSize_D {s : ℤ} (hs : s ≠ 0) (prec : ℤ) :
    FormatSize s 'D' prec =
      if PB ≤ s ∨ s ≤ -PB then fmtSize s PB prec ['P', 'B']
      else if TB ≤ s ∨ s ≤ -TB then fmtSize s TB prec ['T', 'B']
      else if GB ≤ s ∨ s ≤ -GB then fmtSize s GB prec ['G', 'B']
      else if MB ≤ s ∨ s ≤ -MB then fmtSize s MB prec ['M', 'B']
      else if KB ≤ s ∨ s ≤ -KB then fmtSize s KB prec ['K', 'B']
      else fmtSize s Byte prec ['B'] := by
  unfold FormatSize
  rw [if_neg hs, if_pos (Or.inr rfl)]
  have hud : (('D' : Char) = 'D') = True := eq_true rfl
  dsimp only
  simp only [hud, if_true]

theorem formatSize_b {s : ℤ} (hs : s ≠ 0) (prec : ℤ) :
    FormatSize s 'b' prec =
      if PiB ≤ s ∨ s ≤ -PiB then fmtSize s PiB prec ['p', 'i', 'b']
      else if TiB ≤ s ∨ s ≤ -TiB then fmtSize s TiB prec ['t', 'i', 'b']
      else if GiB ≤ s ∨ s ≤ -GiB then fmtSize s GiB prec ['g', 'i', 'b']
      else if MiB ≤ s ∨ s ≤ -MiB then fmtSize s MiB prec ['m', 'i', 'b']
      else if KiB ≤ s ∨ s ≤ -KiB then fmtSize s KiB prec ['k', 'i', 'b']
      else fmtSize s Byte prec ['b'] := by
  unfold FormatSize
  rw [if_neg hs, if_neg (by decide), if_pos (Or.inl rfl)]
  have hud : (('b' : Char) = 'B') = False := eq_false (by decide)
  dsimp only
  simp only [hud, if_false]

theorem formatSize_B {s : ℤ} (hs : s ≠ 0) (prec : ℤ) :
    FormatSize s 'B' prec =
      if PiB ≤ s ∨ s ≤ -PiB then fmtSize s PiB prec ['P', 'i', 'B']
      else if TiB ≤ s ∨ s ≤ -TiB then fmtSize s TiB prec ['T', 'i', 'B']
      else if GiB ≤ s ∨ s ≤ -GiB then fmtSize s GiB prec ['G', 'i', 'B']
      else if MiB ≤ s ∨ s ≤ -MiB then fmtSize s MiB prec ['M', 'i', 'B']
      else if KiB ≤ s ∨ s ≤ -KiB then fmtSize s KiB prec ['K', 'i', 'B']
      else fmtSize s Byte prec ['B'] := by
  unfold FormatSize
  rw [if_neg hs, if_neg (by decide), if_pos (Or.inr rfl)]
  have hud : (('B' : Char) = 'B') = True := eq_true rfl
  dsimp only
  simp only [hud, if_true]

theorem formatSize_i {s : ℤ} (hs : s ≠ 0) (prec : ℤ) :
    FormatSize s 'i' prec =
      if TBit ≤ s ∨ s ≤ -TBit then fmtSize s TBit prec ['t', 'b', 'i', 't']
      else if GBit ≤ s ∨ s ≤ -GBit then fmtSize s GBit prec ['g', 'b', 'i', 't']
      else if MBit ≤ s ∨ s ≤ -MBit then fmtSize s MBit prec ['m', 'b', 'i', 't']
      else if KBit ≤ s ∨ s ≤ -KBit then fmtSize s KBit prec ['k', 'b', 'i', 't']
      else intToStr s ++ ['b', 'i', 't'] := by
  unfold FormatSize
  rw [if_neg hs, if_neg (by decide), if_neg (by decide), if_pos (Or.inl rfl)]
  have hud : (('i' : Char) = 'I') = False := eq_false (by decide)
  dsimp only
  simp only [hud, if_false]

theorem formatSize_I {s : ℤ} (hs : s ≠ 0) (prec : ℤ) :
    FormatSize s 'I' prec =
      if TBit ≤ s ∨ s ≤ -TBit then fmtSize s TBit prec ['T', 'b', 'i', 't']
      else if GBit ≤ s ∨ s ≤ -GBit then fmtSize s GBit prec ['G', 'b', 'i', 't']
      else if MBit ≤ s ∨ s ≤ -MBit then fmtSize s MBit prec ['M', 'b', 'i', 't']
      else if KBit ≤ s ∨ s ≤ -KBit then fmtSize s KBit prec ['K', 'b', 'i', 't']
      else intToStr s ++ ['B', 'i', 't'] := by
  unfold FormatSize
  rw [if_neg hs, if_neg (by decide), if_neg (by decide), if_pos (Or.inr rfl)]
  have hud : (('I' : Char) = 'I') = True := eq_true rfl
  dsimp only
  simp only [hud, if_true]

/-! ## Claim theorem: zero formatting and its uniqueness -/

/-- Claim C7: for every valid selector and every precision, formatting
zero yields the selector's fixed zero literal (independent of the
precision), and for each fixed valid selector, zero is the unique size
whose precision `-1` formatting equals that zero literal. -/
theorem formatSize_zero_unique :
    (∀ p : ℤ, FormatSize 0 'd' p = ['0', 'b'] ∧ FormatSize 0 'b' p = ['0', 'b'] ∧
      FormatSize 0 'D' p = ['0', 'B'] ∧ FormatSize 0 'B' p = ['0', 'B'] ∧
      FormatSize 0 'i' p = ['0', 'b', 'i', 't'] ∧
      FormatSize 0 'I' p = ['0', 'B', 'i', 't']) ∧
    (∀ s : ℤ, ∀ f : Char,
      f = 'd' ∨ f = 'D' ∨ f = 'b' ∨ f = 'B' ∨ f = 'i' ∨ f = 'I' →
      FormatSize s f (-1) = FormatSize 0 f (-1) → s = 0) := by
  constructor
  · intro p
    refine ⟨rfl, rfl, rfl, rfl, rfl, rfl⟩
  · intro s f hf heq
    by_cases hs : s = 0
    · exact hs
    · exfalso
      have hlen2 : ∀ base : ℤ, ∀ unit : List Char, 2 ≤ unit.length →
          ∀ lit : List Char, lit.length ≤ unit.length →
          fmtSize s base (-1) unit ≠ lit := by
        intro base unit hu lit hlit hcontra
        have hl := fmtSize_length s base (-1) unit
        rw [hcontra] at hl
        omega
      rcases hf with rfl | rfl | rfl | rfl | rfl | rfl
      · rw [show FormatSize 0 'd' (-1) = ['0', 'b'] from rfl] at heq
        rw [formatSize_d hs (-1)] at heq
        split_ifs at heq
        · exact hlen2 PB ['p', 'b'] (by norm_num) _ (by norm_num) heq
        · exact hlen2 TB ['t', 'b'] (by norm_num) _ (by norm_num) heq
        · exact hlen2 GB ['g', 'b'] (by norm_num) _ (by norm_num) heq
        · exact hlen2 MB ['m', 'b'] (by norm_num) _ (by norm_num) heq
        · exact hlen2 KB ['k', 'b'] (by norm_num) _ (by norm_num) heq
        · exact hs (fmtSize_byte_zero 'b' heq)
      · rw [show FormatSize 0 'D' (-1) = ['0', 'B'] from rfl] at heq
        rw [formatSize_D hs (-1)] at heq
        split_ifs at heq
        · exact hlen2 PB ['P', 'B'] (by norm_num) _ (by norm_num) heq
        · exact hlen2 TB ['T', 'B'] (by norm_num) _ (by norm_num) heq
        · exact hlen2 GB ['G', 'B'] (by norm_num) _ (by norm_num) heq
        · exact hlen2 MB ['M', 'B'] (by norm_num) _ (by norm_num) heq
        · exact hlen2 KB ['K', 'B'] (by norm_num) _ (by norm_num) heq
        · exact hs (fmtSize_byte_zero 'B' heq)
      · rw [show FormatSize 0 'b' (-1) = ['0', 'b'] from rfl] at heq
        rw [formatSize_b hs (-1)] at heq
        split_ifs at heq
        · exact hlen2 PiB ['p', 'i', 'b'] (by norm_num) _ (by norm_num) heq
        · exact hlen2 TiB ['t', 'i', 'b'] (by norm_num) _ (by norm_num) heq
        · exact hlen2 GiB ['g', 'i', 'b'] (by norm_num) _ (by norm_num) heq
        · exact hlen2 MiB ['m', 'i', 'b'] (by norm_num) _ (by norm_num) heq
        · exact hlen2 KiB ['k', 'i', 'b'] (by norm_num) _ (by norm_num) heq
        · exact hs (fmtSize_byte_zero 'b' heq)
      · rw [show FormatSize 0 'B' (-1) = ['0', 'B'] from rfl] at heq
        rw [formatSize_B hs (-1)] at heq
        split_ifs at heq
        · exact hlen2 PiB ['P', 'i', 'B'] (by norm_num) _ (by norm_num) heq
        · exact hlen2 TiB ['T', 'i', 'B'] (by norm_num) _ (by norm_num) heq
        · exact hlen2 GiB ['G', 'i', 'B'] (by norm_num) _ (by norm_num) heq
        · exact hlen2 MiB ['M', 'i', 'B'] (by norm_num) _ (by norm_num) heq
        · exact hlen2 KiB ['K', 'i', 'B'] (by norm_num) _ (by norm_num) heq
        · exact hs (fmtSize_byte_zero 'B' heq)
      · rw [show FormatSize 0 'i' (-1) = ['0', 'b', 'i', 't'] from rfl] at heq
        rw [formatSize_i hs (-1)] at heq
        split_ifs at heq
        · exact hlen2 TBit ['t', 'b', 'i', 't'] (by norm_num) _ (by norm_num) heq
        · exact hlen2 GBit ['g', 'b', 'i', 't'] (by norm_num) _ (by norm_num) heq
        · exact hlen2 MBit ['m', 'b', 'i', 't'] (by norm_num) _ (by norm_num) heq
        · exact hlen2 KBit ['k', 'b', 'i', 't'] (by norm_num) _ (by norm_num) heq
        · exact hs (intToStr_eq_zero (List.append_cancel_right heq))
      · rw [show FormatSize 0 'I' (-1) = ['0', 'B', 'i', 't'] from rfl] at heq
        rw [formatSize_I hs (-1)] at heq
        split_ifs at heq
        · exact hlen2 TBit ['T', 'b', 'i', 't'] (by norm_num) _ (by norm_num) heq
        · exact hlen2 GBit ['G', 'b', 'i', 't'] (by norm_num) _ (by norm_num) heq
        · exact hlen2 MBit ['M', 'b', 'i', 't'] (by norm_num) _ (by norm_num) heq
        · exact hlen2 KBit ['K', 'b', 'i', 't'] (by norm_num) _ (by norm_num) heq
        · exact hs (intToStr_eq_zero (List.append_cancel_right heq))

/-- Concrete witness for `formatSize_zero_unique`. -/
theorem formatSize_zero_unique_witness :
    FormatSize 0 'd' 7 = ['0', 'b'] ∧ (0 : ℤ) = 0 :=
  ⟨(formatSize_zero_unique.1 7).1,
   formatSize_zero_unique.2 0 'd' (Or.inl rfl) rfl⟩

end Mem

namespace Mem

set_option maxRecDepth 100000 in
/-- Claim C1 (code evaluated at the failing input): the precision `-1`
round-trip law fails at `s = 2^53 + 1` (one bit more than a pebibyte)
with selector `'b'`.  The formatter emits the shortest round-tripping
decimal of the binary64 remainder `2^-53`, which has 32 fractional
digits; the parser multiplies its `uint64` divisor `l` by 10 once per
fractional digit, so `l` wraps around past 19 digits
(`10^32 mod 2^64 = 9632337040368467968`) and the reconstructed fraction
is garbage: parsing returns `2^53 + 10381696527115` instead of
`2^53 + 1`, although `ParseSize` reports success. -/
theorem formatSize_parseSize_roundtrip_fails :
    FormatSize (2 ^ 53 + 1) 'b' (-1) =
      ['1', '.', '0', '0', '0', '0', '0', '0', '0', '0', '0', '0', '0', '0',
       '0', '0', '0', '1', '1', '1', '0', '2', '2', '3', '0', '2', '4', '6',
       '2', '5', '1', '5', '6', '5', 'p', 'i', 'b'] ∧
    ParseSize (FormatSize (2 ^ 53 + 1) 'b' (-1)) = (9017580951268107, true) ∧
    (9017580951268107 : ℤ) ≠ 2 ^ 53 + 1 := by
  decide

end Mem
